import Mathlib

/-!
# Superstore sales analysis pipeline — verification development

A shallow embedding of the Superstore sales-analysis program.  The
repository's own code is the notebook `notebooks/exploratory_analysis.ipynb`
(package setup, warning suppression, display options, one `pd.read_excel`
call, and five empty "Data Profiling" cells); that notebook is embedded
directly in the `Notebook` section below.  The analytical pipeline
(Normalizer, Aggregation Engine, Segmentation Engine, Trend Extractor,
Discount-Profit Analyzer) does not exist in the source; those components are
modelled from the specification, and each such definition carries a
`Modelled from the spec:` doc comment.
-/

namespace Superstore

/-- A calendar date (year, month, day). -/
structure Date where
  y : ℕ
  m : ℕ
  d : ℕ
deriving DecidableEq, Repr

/-- Days since the civil epoch 1970-01-01 (standard civil-calendar
day-count arithmetic, here on `ℤ`). -/
def Date.toDays (dt : Date) : ℤ :=
  let yAdj : ℤ := (dt.y : ℤ) - (if dt.m ≤ 2 then 1 else 0)
  let era : ℤ := yAdj / 400
  let yoe : ℤ := yAdj - era * 400
  let mp : ℤ := if 2 < dt.m then (dt.m : ℤ) - 3 else (dt.m : ℤ) + 9
  let doy : ℤ := (153 * mp + 2) / 5 + (dt.d : ℤ) - 1
  let doe : ℤ := yoe * 365 + yoe / 4 - yoe / 100 + doy
  era * 146097 + doe - 719468

/-- Calendar period granularities recognized by the pipeline configuration. -/
inductive Granularity where
  | day
  | week
  | month
  | quarter
  | year
deriving DecidableEq, Repr

/-- Modelled from the spec: the index of the calendar period a date falls
in, for a chosen granularity (missing from src; §4.5 Trend Extractor). -/
def periodIndex (g : Granularity) (dt : Date) : ℤ :=
  match g with
  | .day => dt.toDays
  | .week => dt.toDays / 7
  | .month => (dt.y : ℤ) * 12 + ((dt.m : ℤ) - 1)
  | .quarter => (dt.y : ℤ) * 4 + ((dt.m : ℤ) - 1) / 3
  | .year => (dt.y : ℤ)

/-- Modelled from the spec: the canonical `OrderRecord` shape (§3 Data
Model; missing from src, which loads raw rows and never normalizes them). -/
structure OrderRecord where
  orderId : String
  productId : String
  customerId : String
  orderDate : Date
  shipDate : Date
  shipMode : String
  segment : String
  country : String
  city : String
  state : String
  postalCode : String
  region : String
  category : String
  subCategory : String
  productName : String
  customerName : String
  sale : ℚ
  discount : ℚ
  quantity : ℕ
  profit : ℚ
deriving DecidableEq, Repr

/-- Modelled from the spec: a `DimensionAggregate` row (§3; missing from
src). -/
structure DimensionAggregate where
  key : String
  totalSale : ℚ
  totalProfit : ℚ
  totalQuantity : ℕ
  orderCount : ℕ
deriving DecidableEq, Repr

/-- Modelled from the spec: grouping key of a record for a dimension
selector; a missing/empty value is grouped under `"(unknown)"` (§4.3). -/
def keyOf (dim : OrderRecord → String) (r : OrderRecord) : String :=
  if dim r = "" then "(unknown)" else dim r

/-- Modelled from the spec: the aggregate row for one dimension value
(§4.3 Aggregation Engine; missing from src). -/
def mkAgg (s : List OrderRecord) (dim : OrderRecord → String) (k : String) :
    DimensionAggregate :=
  let g := s.filter (fun r => decide (keyOf dim r = k))
  { key := k
    totalSale := (g.map OrderRecord.sale).sum
    totalProfit := (g.map OrderRecord.profit).sum
    totalQuantity := (g.map OrderRecord.quantity).sum
    orderCount := g.length }

/-- Modelled from the spec: sort order of aggregate rows — descending by the
primary metric (`totalSale`), ties broken by dimension-key lexical order for
determinism (§4.3). -/
def aggOrder (a b : DimensionAggregate) : Prop :=
  b.totalSale < a.totalSale ∨ (a.totalSale = b.totalSale ∧ a.key ≤ b.key)

instance : DecidableRel aggOrder := fun a b =>
  decidable_of_iff
    (b.totalSale < a.totalSale ∨ (a.totalSale = b.totalSale ∧ a.key ≤ b.key))
    Iff.rfl

/-- Modelled from the spec: `aggregate(snapshot, dimension)` — one
`DimensionAggregate` per distinct dimension value present in the snapshot,
sorted descending by the primary metric (§4.3 Aggregation Engine; missing
from src). -/
def aggregate (s : List OrderRecord) (dim : OrderRecord → String) :
    List DimensionAggregate :=
  List.insertionSort aggOrder (((s.map (keyOf dim)).dedup).map (mkAgg s dim))

/-- Minimum of a list of integers (0 for the empty list; callers only use
it on non-empty lists). -/
def listMin : List ℤ → ℤ
  | [] => 0
  | p :: ps => ps.foldl min p

/-- Maximum of a list of integers (0 for the empty list; callers only use
it on non-empty lists). -/
def listMax : List ℤ → ℤ
  | [] => 0
  | p :: ps => ps.foldl max p

/-- Modelled from the spec: a `CustomerValueProfile` (§3; missing from
src). -/
structure CustomerValueProfile where
  recencyDays : ℤ
  frequency : ℕ
  monetaryTotal : ℚ
  segmentLabel : String
deriving DecidableEq, Repr

/-- The distinct customers appearing in a snapshot. -/
def customersOf (s : List OrderRecord) : List String :=
  (s.map OrderRecord.customerId).dedup

/-- All records of one customer. -/
def custRecords (s : List OrderRecord) (c : String) : List OrderRecord :=
  s.filter (fun r => decide (r.customerId = c))

/-- Modelled from the spec: `frequency = count(distinct orderId)` (§4.4). -/
def custFrequency (s : List OrderRecord) (c : String) : ℕ :=
  (((custRecords s c).map OrderRecord.orderId).dedup).length

/-- Modelled from the spec: `monetaryTotal = sum(profit)` (§4.4). -/
def custMonetary (s : List OrderRecord) (c : String) : ℚ :=
  ((custRecords s c).map OrderRecord.profit).sum

/-- Modelled from the spec: `recencyDays = referenceDate - max(orderDate)`
over the customer's orders (§4.4). -/
def custRecency (s : List OrderRecord) (refDate : Date) (c : String) : ℤ :=
  refDate.toDays - listMax ((custRecords s c).map (fun r => r.orderDate.toDays))

/-- Modelled from the spec: quantile band of a value against the full
population, for a configurable band count `q` (§4.4 Segmentation Engine;
missing from src). -/
def bandOf {α : Type} [LinearOrder α] (q : ℕ) (pop : List α) (v : α) : ℕ :=
  min (q - 1) ((pop.countP (fun w => decide (w < v))) * q / pop.length)

/-- Modelled from the spec: the `CustomerValueProfile` of one customer —
the three value measures, each independently ranked into quantile bands
against the full customer population, with `segmentLabel` derived from the
band tuple via the externally supplied lookup table (§4.4; missing from
src). -/
def profileOf (s : List OrderRecord) (refDate : Date) (q : ℕ)
    (table : ℕ → ℕ → ℕ → String) (c : String) : CustomerValueProfile :=
  let cs := customersOf s
  let recPop := cs.map (custRecency s refDate)
  let freqPop := cs.map (custFrequency s)
  let monPop := cs.map (custMonetary s)
  { recencyDays := custRecency s refDate c
    frequency := custFrequency s c
    monetaryTotal := custMonetary s c
    segmentLabel :=
      table (bandOf q recPop (custRecency s refDate c))
        (bandOf q freqPop (custFrequency s c))
        (bandOf q monPop (custMonetary s c)) }

/-- Modelled from the spec: `segment(snapshot, referenceDate, thresholds)` —
one profile per distinct customer of the snapshot (§4.4 Segmentation
Engine; missing from src). -/
def segment (s : List OrderRecord) (refDate : Date) (q : ℕ)
    (table : ℕ → ℕ → ℕ → String) : List (String × CustomerValueProfile) :=
  (customersOf s).map (fun c => (c, profileOf s refDate q table c))

/-- Modelled from the spec: a `PeriodBucket` (§3; missing from src). -/
structure PeriodBucket where
  period : ℤ
  totalSale : ℚ
  totalProfit : ℚ
  totalQuantity : ℕ
deriving DecidableEq, Repr

/-- The period index of every record's order date. -/
def periodsOf (s : List OrderRecord) (g : Granularity) : List ℤ :=
  s.map (fun r => periodIndex g r.orderDate)

/-- The earliest period observed in the snapshot. -/
def minPeriod (s : List OrderRecord) (g : Granularity) : ℤ :=
  listMin (periodsOf s g)

/-- The latest period observed in the snapshot. -/
def maxPeriod (s : List OrderRecord) (g : Granularity) : ℤ :=
  listMax (periodsOf s g)

/-- Modelled from the spec: the bucket of one calendar period — totals over
exactly the records falling in that period, zero when none do (§4.5). -/
def bucketFor (s : List OrderRecord) (g : Granularity) (p : ℤ) :
    PeriodBucket :=
  let recs := s.filter (fun r => decide (periodIndex g r.orderDate = p))
  { period := p
    totalSale := (recs.map OrderRecord.sale).sum
    totalProfit := (recs.map OrderRecord.profit).sum
    totalQuantity := (recs.map OrderRecord.quantity).sum }

/-- Modelled from the spec: `extractTrends(snapshot, periodGranularity)` —
one bucket per calendar period from the earliest to the latest observed
period, zero-activity periods included (§4.5 Trend Extractor; missing from
src). -/
def extractTrends (s : List OrderRecord) (g : Granularity) :
    List PeriodBucket :=
  if s.isEmpty then []
  else
    (List.range ((maxPeriod s g - minPeriod s g).toNat + 1)).map
      (fun i : ℕ => bucketFor s g (minPeriod s g + (i : ℤ)))

/-- The trend-continuity contract of the Trend Extractor: an ordered bucket
sequence covering every period between the minimum and maximum observed
period with no gaps, explicit zero-filled buckets for inactive periods, and
exactly 2 buckets for a range spanning exactly two periods. -/
def trendsSpec (s : List OrderRecord) (g : Granularity) : Prop :=
  (extractTrends s g).length
      = (maxPeriod s g - minPeriod s g).toNat + 1
  ∧ (∀ i : ℕ, i < (extractTrends s g).length
      → ∃ b, (extractTrends s g)[i]? = some b
          ∧ b.period = minPeriod s g + (i : ℤ))
  ∧ (∀ (i : ℕ) (b b' : PeriodBucket),
      (extractTrends s g)[i]? = some b
      → (extractTrends s g)[i + 1]? = some b'
      → b'.period = b.period + 1)
  ∧ (∀ r ∈ s, minPeriod s g ≤ periodIndex g r.orderDate
      ∧ periodIndex g r.orderDate ≤ maxPeriod s g)
  ∧ (∃ r ∈ s, periodIndex g r.orderDate = minPeriod s g)
  ∧ (∃ r ∈ s, periodIndex g r.orderDate = maxPeriod s g)
  ∧ (∀ p : ℤ, minPeriod s g ≤ p → p ≤ maxPeriod s g
      → ∃ b ∈ extractTrends s g, b.period = p)
  ∧ (∀ b ∈ extractTrends s g,
      (∀ r ∈ s, periodIndex g r.orderDate ≠ b.period)
      → b.totalSale = 0 ∧ b.totalProfit = 0 ∧ b.totalQuantity = 0)
  ∧ (maxPeriod s g = minPeriod s g + 1 → (extractTrends s g).length = 2)

/-- Modelled from the spec: the half-open discount intervals cut by an edge
list — `[e_i, e_(i+1))`, with the final interval closed at its upper edge so
that the edges partition `[0,1]` (§3 `DiscountBin` invariant; missing from
src).  Each triple is `(lower edge, upper edge, is-final-interval)`. -/
def mkBins : List ℚ → List (ℚ × ℚ × Bool)
  | [a, b] => [(a, b, true)]
  | a :: b :: c :: rest => (a, b, false) :: mkBins (b :: c :: rest)
  | _ => []

/-- Whether a discount value falls in an interval triple: lower edge
inclusive, upper edge exclusive except on the final interval. -/
def skelContains (t : ℚ × ℚ × Bool) (x : ℚ) : Bool :=
  decide (t.1 ≤ x) && (decide (x < t.2.1) || (t.2.2 && decide (x = t.2.1)))

/-- Modelled from the spec: a `DiscountBin` (§3; missing from src). -/
structure DiscountBin where
  lo : ℚ
  hi : ℚ
  lastBin : Bool
  avgProfitMargin : ℚ
  orderCount : ℕ
  totalSale : ℚ
deriving DecidableEq, Repr

/-- Whether a discount value falls in a bin. -/
def binMem (b : DiscountBin) (x : ℚ) : Bool :=
  decide (b.lo ≤ x) && (decide (x < b.hi) || (b.lastBin && decide (x = b.hi)))

/-- Modelled from the spec: the records admitted to the profit-margin
computation — those with `sale ≠ 0`; records with `sale = 0` are degenerate
and excluded (§4.6, Glossary). -/
def marginInputs (s : List OrderRecord) : List OrderRecord :=
  s.filter (fun r => !decide (r.sale = 0))

/-- Modelled from the spec: the `DiscountBin` row for one interval —
`totalSale`/`orderCount` over the records in the interval,
`avgProfitMargin` over the non-degenerate records in the interval (§4.6;
missing from src). -/
def mkDiscountBin (s : List OrderRecord) (t : ℚ × ℚ × Bool) : DiscountBin :=
  let inB := s.filter (fun r => skelContains t r.discount)
  let ms := ((marginInputs s).filter (fun r => skelContains t r.discount)).map
    (fun r => r.profit / r.sale)
  { lo := t.1
    hi := t.2.1
    lastBin := t.2.2
    avgProfitMargin := ms.sum / (ms.length : ℚ)
    orderCount := inB.length
    totalSale := (inB.map OrderRecord.sale).sum }

/-- Modelled from the spec: the Discount-Profit Analyzer's result (§4.6;
missing from src). -/
structure DiscountReport where
  bins : List DiscountBin
  degenerateCount : ℕ
  optimalBin : Option DiscountBin
deriving DecidableEq, Repr

/-- Modelled from the spec: `analyzeDiscountProfit(snapshot, binEdges)` with
minimum-support threshold — bins the records by discount rate, counts the
degenerate (`sale = 0`) records, and reports as optimal the bin of highest
`avgProfitMargin` among bins whose `totalSale` exceeds the support
threshold, or `none` when no bin qualifies (§4.6 Discount-Profit Analyzer;
missing from src). -/
def analyzeDiscountProfit (s : List OrderRecord) (edges : List ℚ)
    (minSupport : ℚ) : DiscountReport :=
  let bins := (mkBins edges).map (mkDiscountBin s)
  { bins := bins
    degenerateCount := s.countP (fun r => decide (r.sale = 0))
    optimalBin :=
      (bins.filter (fun b => decide (minSupport < b.totalSale))).argmax
        DiscountBin.avgProfitMargin }

/-- Modelled from the spec: a valid `discountBinEdges` configuration — a
strictly increasing edge sequence running from 0 to 1; anything else is a
`ConfigurationError` (§6, §7; missing from src). -/
def validEdges (edges : List ℚ) : Prop :=
  List.Chain' (· < ·) edges
  ∧ edges.head? = some 0 ∧ edges.getLast? = some 1

/-- Modelled from the spec: a raw field value of unspecified primitive
type, possibly missing (§4.1; missing from src). -/
inductive RawValue where
  | missing
  | text (s : String)
  | num (q : ℚ)
  | date (dt : Date)
deriving DecidableEq, Repr

/-- Modelled from the spec: the quarantine reasons of the Normalizer
(§4.1, §7; missing from src). -/
inductive Reason where
  | MISSING_FIELD
  | TYPE_MISMATCH
  | RANGE_VIOLATION
deriving DecidableEq, Repr

/-- Modelled from the spec: one raw heterogeneous row as supplied by the
external loader (§4.1; missing from src). -/
structure RawRow where
  orderId : RawValue
  productId : RawValue
  customerId : RawValue
  orderDate : RawValue
  shipDate : RawValue
  shipMode : RawValue
  segment : RawValue
  country : RawValue
  city : RawValue
  state : RawValue
  postalCode : RawValue
  region : RawValue
  category : RawValue
  subCategory : RawValue
  productName : RawValue
  customerName : RawValue
  sale : RawValue
  discount : RawValue
  quantity : RawValue
  profit : RawValue
deriving DecidableEq, Repr

/-- Field accessor for a required string field. -/
def getStr : RawValue → Except Reason String
  | .missing => .error .MISSING_FIELD
  | .text s => .ok s
  | _ => .error .TYPE_MISMATCH

/-- Field accessor for a required numeric field. -/
def getNum : RawValue → Except Reason ℚ
  | .missing => .error .MISSING_FIELD
  | .num q => .ok q
  | _ => .error .TYPE_MISMATCH

/-- Field accessor for a required integer field (a non-integral number is a
type mismatch, not a range violation). -/
def getInt : RawValue → Except Reason ℤ
  | .missing => .error .MISSING_FIELD
  | .num q => if q.den = 1 then .ok q.num else .error .TYPE_MISMATCH
  | _ => .error .TYPE_MISMATCH

/-- Field accessor for a required date field. -/
def getDate : RawValue → Except Reason Date
  | .missing => .error .MISSING_FIELD
  | .date dt => .ok dt
  | _ => .error .TYPE_MISMATCH

/-- A raw row with every field present and well-typed, before range
checking. -/
structure ParsedRow where
  orderId : String
  productId : String
  customerId : String
  orderDate : Date
  shipDate : Date
  shipMode : String
  segment : String
  country : String
  city : String
  state : String
  postalCode : String
  region : String
  category : String
  subCategory : String
  productName : String
  customerName : String
  sale : ℚ
  discount : ℚ
  quantity : ℤ
  profit : ℚ
deriving DecidableEq, Repr

/-- Modelled from the spec: the parsing phase of the Normalizer — a missing
required field is `MISSING_FIELD`, an ill-typed one `TYPE_MISMATCH`
(§4.1; missing from src). -/
def parseRow (row : RawRow) : Except Reason ParsedRow := do
  let orderId ← getStr row.orderId
  let productId ← getStr row.productId
  let customerId ← getStr row.customerId
  let orderDate ← getDate row.orderDate
  let shipDate ← getDate row.shipDate
  let shipMode ← getStr row.shipMode
  let segLabel ← getStr row.segment
  let country ← getStr row.country
  let city ← getStr row.city
  let stateName ← getStr row.state
  let postalCode ← getStr row.postalCode
  let region ← getStr row.region
  let category ← getStr row.category
  let subCategory ← getStr row.subCategory
  let productName ← getStr row.productName
  let customerName ← getStr row.customerName
  let sale ← getNum row.sale
  let discount ← getNum row.discount
  let quantity ← getInt row.quantity
  let profit ← getNum row.profit
  pure
    { orderId := orderId
      productId := productId
      customerId := customerId
      orderDate := orderDate
      shipDate := shipDate
      shipMode := shipMode
      segment := segLabel
      country := country
      city := city
      state := stateName
      postalCode := postalCode
      region := region
      category := category
      subCategory := subCategory
      productName := productName
      customerName := customerName
      sale := sale
      discount := discount
      quantity := quantity
      profit := profit }

/-- Modelled from the spec: the range invariants of §3 — `sale ≥ 0`,
`discount ∈ [0,1]`, `quantity ≥ 1`, `shipDate ≥ orderDate`. -/
def rangeOk (p : ParsedRow) : Bool :=
  decide (0 ≤ p.sale) && decide (0 ≤ p.discount) && decide (p.discount ≤ 1)
    && decide (1 ≤ p.quantity)
    && decide (p.orderDate.toDays ≤ p.shipDate.toDays)

/-- A range-checked parsed row as a canonical record. -/
def toRecord (p : ParsedRow) : OrderRecord :=
  { orderId := p.orderId
    productId := p.productId
    customerId := p.customerId
    orderDate := p.orderDate
    shipDate := p.shipDate
    shipMode := p.shipMode
    segment := p.segment
    country := p.country
    city := p.city
    state := p.state
    postalCode := p.postalCode
    region := p.region
    category := p.category
    subCategory := p.subCategory
    productName := p.productName
    customerName := p.customerName
    sale := p.sale
    discount := p.discount
    quantity := p.quantity.toNat
    profit := p.profit }

/-- Modelled from the spec: normalization of one raw row — parse every
field, then quarantine with `RANGE_VIOLATION` any row whose numbers violate
the stated ranges; nothing is coerced into range (§4.1; missing from
src). -/
def normalizeRow (row : RawRow) : Except Reason OrderRecord :=
  match parseRow row with
  | .error e => .error e
  | .ok p => if rangeOk p then .ok (toRecord p) else .error .RANGE_VIOLATION

/-- Normalization of a row sequence starting at a given row index,
accumulating the cleaned snapshot and the quarantine reports. -/
def normalizeFrom : ℕ → List RawRow → List OrderRecord × List (ℕ × Reason)
  | _, [] => ([], [])
  | i, row :: rest =>
    match normalizeRow row with
    | .ok r => (r :: (normalizeFrom (i + 1) rest).1,
        (normalizeFrom (i + 1) rest).2)
    | .error e => ((normalizeFrom (i + 1) rest).1,
        (i, e) :: (normalizeFrom (i + 1) rest).2)

/-- Modelled from the spec: the Normalizer — consumes raw rows, produces
the cleaned snapshot plus the quarantined-row reports `(rowIndex, reason)`;
per-row errors never abort the run (§4.1, §7; missing from src). -/
def normalize (rows : List RawRow) :
    List OrderRecord × List (ℕ × Reason) :=
  normalizeFrom 0 rows

/-- A sample order record for concrete evaluations. -/
def sampleRecord (oid cid : String) (od : Date) (sale discount profit : ℚ)
    (qty : ℕ) (cat : String) : OrderRecord :=
  { orderId := oid
    productId := "P1"
    customerId := cid
    orderDate := od
    shipDate := od
    shipMode := "Standard Class"
    segment := "Consumer"
    country := "United States"
    city := "Austin"
    state := "Texas"
    postalCode := "73301"
    region := "Central"
    category := cat
    subCategory := "Chairs"
    productName := "Desk Chair"
    customerName := "A Customer"
    sale := sale
    discount := discount
    quantity := qty
    profit := profit }

/-- A sample reference date. -/
def exRefDate : Date := ⟨2017, 12, 31⟩

/-- A sample segment-label lookup table (an external configuration input). -/
def exTable : ℕ → ℕ → ℕ → String := fun _ _ _ => "Champion"

/-- A one-customer, one-order snapshot with profit 10. -/
def exSnap1 : List OrderRecord :=
  [sampleRecord "ORD-1" "CU-1" ⟨2017, 6, 5⟩ 100 0 10 1 "Furniture"]

/-- A snapshot whose order dates span exactly two calendar months. -/
def exSnap2 : List OrderRecord :=
  [sampleRecord "ORD-1" "CU-1" ⟨2017, 6, 5⟩ 100 0 10 1 "Furniture",
   sampleRecord "ORD-2" "CU-2" ⟨2017, 7, 20⟩ 200 0 20 2 "Technology"]

/-- A sample raw row for concrete evaluations, matching `sampleRecord` on
the constant fields. -/
def rawRowOf (oid cid : String) (od : Date) (sale discount profit qty : ℚ)
    (cat : String) : RawRow :=
  { orderId := .text oid
    productId := .text "P1"
    customerId := .text cid
    orderDate := .date od
    shipDate := .date od
    shipMode := .text "Standard Class"
    segment := .text "Consumer"
    country := .text "United States"
    city := .text "Austin"
    state := .text "Texas"
    postalCode := .text "73301"
    region := .text "Central"
    category := .text cat
    subCategory := .text "Chairs"
    productName := .text "Desk Chair"
    customerName := .text "A Customer"
    sale := .num sale
    discount := .num discount
    quantity := .num qty
    profit := .num profit }

/-- A raw row sequence whose first row has the out-of-range discount `1.5`
and whose second row is fully valid. -/
def exRawRows : List RawRow :=
  [rawRowOf "ORD-1" "CU-1" ⟨2017, 6, 5⟩ 100 (3/2) 10 1 "Furniture",
   rawRowOf "ORD-2" "CU-2" ⟨2017, 7, 20⟩ 200 0 20 2 "Technology"]

/-- The parsed form of the out-of-range sample row. -/
def exParsedBad : ParsedRow :=
  { orderId := "ORD-1"
    productId := "P1"
    customerId := "CU-1"
    orderDate := ⟨2017, 6, 5⟩
    shipDate := ⟨2017, 6, 5⟩
    shipMode := "Standard Class"
    segment := "Consumer"
    country := "United States"
    city := "Austin"
    state := "Texas"
    postalCode := "73301"
    region := "Central"
    category := "Furniture"
    subCategory := "Chairs"
    productName := "Desk Chair"
    customerName := "A Customer"
    sale := 100
    discount := 3/2
    quantity := 1
    profit := 10 }

/-- A sample edge list cutting `[0,1]` into two bins. -/
def exEdges : List ℚ := [0, 1/2, 1]

/-- A snapshot in which every record has `sale = 0`. -/
def exSnapZero : List OrderRecord :=
  [sampleRecord "ORD-1" "CU-1" ⟨2017, 6, 5⟩ 0 0 (-5) 1 "Furniture",
   sampleRecord "ORD-2" "CU-2" ⟨2017, 7, 20⟩ 0 (1/5) 0 2 "Technology"]

/-- Modelled from the spec: the pipeline configuration surface (§6;
missing from src). -/
structure PipelineConfig where
  referenceDate : Date
  periodGranularity : Granularity
  quantileBandCount : ℕ
  labelTable : ℕ → ℕ → ℕ → String
  discountBinEdges : List ℚ
  minSupportThreshold : ℚ
  outlierZScoreThreshold : ℚ
  dimension : OrderRecord → String

/-- Modelled from the spec: the global pipeline errors (§7; missing from
src). -/
inductive PipelineError where
  | EmptySnapshotError
  | ConfigurationError
deriving DecidableEq, Repr

/-- The result tables of one pipeline run. -/
structure PipelineOutput where
  aggregates : List DimensionAggregate
  profiles : List (String × CustomerValueProfile)
  trends : List PeriodBucket
  discountReport : DiscountReport
deriving DecidableEq, Repr

/-- Strict monotonicity check on an edge list. -/
def edgesMonoB : List ℚ → Bool
  | a :: b :: rest => decide (a < b) && edgesMonoB (b :: rest)
  | _ => true

/-- Modelled from the spec: the configuration validity check performed
before any data is processed (§7 `ConfigurationError`; missing from
src). -/
def validConfigB (cfg : PipelineConfig) : Bool :=
  edgesMonoB cfg.discountBinEdges
    && decide (cfg.discountBinEdges.head? = some 0)
    && decide (cfg.discountBinEdges.getLast? = some 1)
    && decide (2 ≤ cfg.quantileBandCount)
    && decide (0 ≤ cfg.minSupportThreshold)
    && decide (0 < cfg.outlierZScoreThreshold)

/-- Modelled from the spec: one full pipeline run — configuration check,
empty-snapshot check, then the four analytical components over the same
immutable snapshot (§2, §5, §7; missing from src). -/
def runPipeline (s : List OrderRecord) (cfg : PipelineConfig) :
    Except PipelineError PipelineOutput :=
  if validConfigB cfg then
    if s.isEmpty then .error .EmptySnapshotError
    else .ok
      { aggregates := aggregate s cfg.dimension
        profiles := segment s cfg.referenceDate cfg.quantileBandCount
          cfg.labelTable
        trends := extractTrends s cfg.periodGranularity
        discountReport := analyzeDiscountProfit s cfg.discountBinEdges
          cfg.minSupportThreshold }
  else .error .ConfigurationError

/-! ## Notebook

The embedding of the repository's actual code: the 11 code cells of
`notebooks/exploratory_analysis.ipynb`. -/

/-- A spreadsheet cell value. -/
inductive CellValue where
  | str (s : String)
  | num (q : ℚ)
  | blank
deriving DecidableEq, Repr

/-- A spreadsheet row: column name to value. -/
abbrev SheetRow := List (String × CellValue)

/-- A sheet: a row sequence. -/
abbrev Sheet := List SheetRow

/-- A workbook: named sheets. -/
abbrev Workbook := List (String × Sheet)

/-- A pandas `DataFrame` with an index column: index value paired with the
row. -/
abbrev DataFrame := List (CellValue × SheetRow)

/-- Sheet lookup by name. -/
def lookupSheet (wb : Workbook) (name : String) : Option Sheet :=
  (wb.find? (fun p => decide (p.1 = name))).map Prod.snd

/-- Cell lookup by column name (blank when the column is absent). -/
def getCell (r : SheetRow) (col : String) : CellValue :=
  ((r.find? (fun p => decide (p.1 = col))).map Prod.snd).getD .blank

/-- The notebook's data acquisition,
`pd.read_excel(raw_data_path, sheet_name="Orders", index_col="Row ID")`:
every row of the named sheet, keyed by the index column, admitted without
any validation. -/
def read_excel (wb : Workbook) (sheetName idxCol : String) :
    Option DataFrame :=
  (lookupSheet wb sheetName).map
    (fun sh => sh.map (fun r => (getCell r idxCol, r)))

/-- The code cells of `exploratory_analysis.ipynb`, in order. -/
inductive NotebookCell where
  | pipInstall
  | warnFilterIgnore
  | libImports
  | setDisplayOpts
  | watermarkCell
  | dataAcquisition
  | emptyCell
deriving DecidableEq, Repr

/-- The notebook's 11 code cells: package install, `import warnings;
warnings.filterwarnings("ignore")`, library imports, four
`pd.set_option` calls, the watermark magic, the `pd.read_excel` call, and
the five empty Data Profiling cells. -/
def notebookCells : List NotebookCell :=
  [.pipInstall, .warnFilterIgnore, .libImports, .setDisplayOpts,
   .watermarkCell, .dataAcquisition, .emptyCell, .emptyCell, .emptyCell,
   .emptyCell, .emptyCell]

/-- Interpreter state of a notebook run: the process-wide warning filters,
the warnings actually surfaced, the global display options, and the loaded
DataFrame. -/
structure NotebookState where
  warnFilters : List String
  shownWarnings : List String
  displayOpts : List (String × String)
  df : Option DataFrame
deriving DecidableEq, Repr

/-- The state at interpreter start. -/
def initState : NotebookState :=
  { warnFilters := [], shownWarnings := [], displayOpts := [], df := none }

/-- Raising one Python warning: surfaced unless an ignore filter is
installed. -/
def raiseWarning (w : String) (st : NotebookState) : NotebookState :=
  if st.warnFilters.contains "ignore" then st
  else { st with shownWarnings := st.shownWarnings ++ [w] }

/-- The state effect of each code cell, from the notebook source. -/
def cellEffect (wb : Workbook) : NotebookCell → NotebookState → NotebookState
  | .warnFilterIgnore, st =>
    { st with warnFilters := "ignore" :: st.warnFilters }
  | .setDisplayOpts, st =>
    { st with displayOpts :=
        [("display.max_columns", "250"), ("display.max_rows", "300"),
         ("display.width", "1000"), ("display.float_format", "\x7b:,.4f\x7d")] }
  | .dataAcquisition, st =>
    { st with df := read_excel wb "Orders" "Row ID" }
  | _, st => st

/-- Executing one cell paired with the warnings it raises: the warnings
pass through the current filters, then the cell's effect applies. -/
def execCell (wb : Workbook) (p : List String × NotebookCell)
    (st : NotebookState) : NotebookState :=
  cellEffect wb p.2 (p.1.foldl (fun acc w => raiseWarning w acc) st)

/-- Executing a cell sequence in order. -/
def execCells (wb : Workbook) (ps : List (List String × NotebookCell))
    (st : NotebookState) : NotebookState :=
  ps.foldl (fun acc p => execCell wb p acc) st

/-- Pair each cell with the warnings an arbitrary environment makes it
raise. -/
def withWarnings (warn : ℕ → List String) (cells : List NotebookCell) :
    List (List String × NotebookCell) :=
  ((List.range cells.length).zip cells).map (fun p => (warn p.1, p.2))

/-- One full top-to-bottom notebook run. -/
def runNotebook (wb : Workbook) (warn : ℕ → List String) : NotebookState :=
  execCells wb (withWarnings warn notebookCells) initState

/-- A notebook run stopped after the first `n` code cells. -/
def runNotebookPrefix (wb : Workbook) (warn : ℕ → List String) (n : ℕ) :
    NotebookState :=
  execCells wb ((withWarnings warn notebookCells).take n) initState

/-- The process-wide ignore filter is installed. -/
def ignoreInstalled (st : NotebookState) : Prop :=
  st.warnFilters.contains "ignore" = true

/-- A sample pipeline configuration. -/
def exConfig : PipelineConfig :=
  { referenceDate := exRefDate
    periodGranularity := .month
    quantileBandCount := 4
    labelTable := exTable
    discountBinEdges := exEdges
    minSupportThreshold := 0
    outlierZScoreThreshold := 3
    dimension := OrderRecord.category }

/-- A sample "Orders" sheet; its first row carries an out-of-range
discount. -/
def exSheet : Sheet :=
  [[("Row ID", CellValue.num 1), ("Order ID", CellValue.str "ORD-1"),
    ("Discount", CellValue.num (3/2))],
   [("Row ID", CellValue.num 2), ("Order ID", CellValue.str "ORD-2"),
    ("Discount", CellValue.num 0)]]

/-- A sample workbook holding the "Orders" sheet. -/
def exWorkbook : Workbook := [("Orders", exSheet)]

/-- Summing a list of zeros gives zero. -/
lemma sum_map_zero (keys : List String) :
    (keys.map (fun _ => (0 : ℚ))).sum = 0 := by
  induction keys with
  | nil => simp
  | cons k ks ih => simp [ih]

/-- On a duplicate-free key list containing `x`, adding `a` at the unique
position `x` adds `a` to the total. -/
lemma sum_ite_insert (keys : List String) (x : String) (a : ℚ)
    (f : String → ℚ) (hnd : keys.Nodup) (hx : x ∈ keys) :
    (keys.map (fun k => if x = k then a + f k else f k)).sum
      = a + (keys.map f).sum := by
  induction keys with
  | nil => cases hx
  | cons k ks ih =>
    rcases List.mem_cons.mp hx with hxk | hxks
    · subst hxk
      have hnotin : x ∉ ks := (List.nodup_cons.mp hnd).1
      have hmap : ks.map (fun k => if x = k then a + f k else f k)
          = ks.map f := by
        apply List.map_congr_left
        intro b hb
        have : x ≠ b := fun hxb => hnotin (hxb ▸ hb)
        simp [this]
      simp only [List.map_cons, List.sum_cons, hmap]
      simp only [if_true]
      ring
    · have hxk : x ≠ k := by
        intro h
        exact (List.nodup_cons.mp hnd).1 (h ▸ hxks)
      have := ih (List.nodup_cons.mp hnd).2 hxks
      simp only [List.map_cons, List.sum_cons, if_neg hxk, this]
      ring

/-- Partition law for list sums: summing a measure `f` group-by-group over a
duplicate-free key list covering every record equals summing it over the
whole list. -/
lemma filter_sum_partition (s : List OrderRecord)
    (key : OrderRecord → String) (f : OrderRecord → ℚ) (keys : List String)
    (hnd : keys.Nodup) (hcov : ∀ r ∈ s, key r ∈ keys) :
    (keys.map
        (fun k => ((s.filter (fun r => decide (key r = k))).map f).sum)).sum
      = (s.map f).sum := by
  induction s with
  | nil =>
    simp only [List.filter_nil, List.map_nil, List.sum_nil]
    exact sum_map_zero keys
  | cons r s ih =>
    have hks : ∀ k ∈ keys,
        ((List.filter (fun x => decide (key x = k)) (r :: s)).map f).sum
          = (fun k =>
              if key r = k then
                f r + ((List.filter (fun x => decide (key x = k)) s).map f).sum
              else ((List.filter (fun x => decide (key x = k)) s).map f).sum) k := by
      intro k _
      by_cases h : key r = k
      · simp [List.filter_cons, h]
      · simp [List.filter_cons, h]
    rw [List.map_congr_left hks,
      sum_ite_insert keys (key r) (f r) _ hnd (hcov r (List.mem_cons_self r s)),
      ih (fun x hx => hcov x (List.mem_cons_of_mem r hx))]
    simp

/-- Conservation through aggregation: total sale over all aggregate rows
equals total sale over the snapshot. -/
lemma aggregate_conserves (s : List OrderRecord) (dim : OrderRecord → String) :
    ((aggregate s dim).map DimensionAggregate.totalSale).sum
      = (s.map OrderRecord.sale).sum := by
  unfold aggregate
  have hperm :=
    List.perm_insertionSort aggOrder
      (((s.map (keyOf dim)).dedup).map (mkAgg s dim))
  rw [(hperm.map DimensionAggregate.totalSale).sum_eq, List.map_map]
  have hcomp : (DimensionAggregate.totalSale ∘ mkAgg s dim)
      = fun k =>
        ((s.filter (fun r => decide (keyOf dim r = k))).map OrderRecord.sale).sum :=
    rfl
  rw [hcomp]
  exact filter_sum_partition s (keyOf dim) OrderRecord.sale _
    (List.nodup_dedup _)
    (fun r hr => List.mem_dedup.mpr (List.mem_map_of_mem _ hr))

/-- C1: conservation law — for every snapshot and every single-dimension
partition (any dimension selector, empty values grouped under
`"(unknown)"`), the sum of `totalSale` over all `DimensionAggregate` rows
produced by `aggregate` equals the sum of `sale` over all records of the
snapshot. -/
theorem aggregate_totalSale_conservation :
    ∀ (s : List OrderRecord) (dim : OrderRecord → String),
      ((aggregate s dim).map DimensionAggregate.totalSale).sum
        = (s.map OrderRecord.sale).sum :=
  fun s dim => aggregate_conserves s dim

/-- The first components of `segment`'s output are exactly the distinct
customers of the snapshot. -/
lemma segment_map_fst (s : List OrderRecord) (refDate : Date) (q : ℕ)
    (table : ℕ → ℕ → ℕ → String) :
    (segment s refDate q table).map Prod.fst = customersOf s := by
  unfold segment
  rw [List.map_map]
  exact List.map_id _

/-- C2: partition law of segmentation — `segment` assigns to every customer
appearing in the snapshot exactly one `CustomerValueProfile` (hence exactly
one `segmentLabel`): the assigned customer keys are duplicate-free, a
customer has a profile iff it appears in the snapshot (no omission, nothing
extra), and the profile attached to a customer is unique (no customer in
two segments). -/
theorem segment_partition_law :
    ∀ (s : List OrderRecord) (refDate : Date) (q : ℕ)
      (table : ℕ → ℕ → ℕ → String),
      ((segment s refDate q table).map Prod.fst).Nodup
      ∧ (∀ c : String,
          c ∈ (segment s refDate q table).map Prod.fst
            ↔ ∃ r ∈ s, r.customerId = c)
      ∧ (∀ (c : String) (p₁ p₂ : CustomerValueProfile),
          (c, p₁) ∈ segment s refDate q table
          → (c, p₂) ∈ segment s refDate q table → p₁ = p₂) := by
  intro s refDate q table
  refine ⟨?_, ?_, ?_⟩
  · rw [segment_map_fst]
    exact List.nodup_dedup _
  · intro c
    rw [segment_map_fst]
    unfold customersOf
    rw [List.mem_dedup, List.mem_map]
  · intro c p₁ p₂ h₁ h₂
    unfold segment at h₁ h₂
    rcases List.mem_map.mp h₁ with ⟨a₁, _, he₁⟩
    rcases List.mem_map.mp h₂ with ⟨a₂, _, he₂⟩
    have ha₁ : a₁ = c := congrArg Prod.fst he₁
    have ha₂ : a₂ = c := congrArg Prod.fst he₂
    have hp₁ : profileOf s refDate q table a₁ = p₁ := congrArg Prod.snd he₁
    have hp₂ : profileOf s refDate q table a₂ = p₂ := congrArg Prod.snd he₂
    rw [← hp₁, ← hp₂, ha₁, ha₂]

/-- Witness for C2 on a concrete one-customer snapshot: the partition law's
no-duplicates part holds, the single customer is covered, and (Example 3) a
customer with a single order and profit 10 receives a profile with
`frequency = 1` and a valid segment label. -/
theorem segment_partition_law_witness :
    ((segment exSnap1 exRefDate 4 exTable).map Prod.fst).Nodup
    ∧ ("CU-1" ∈ (segment exSnap1 exRefDate 4 exTable).map Prod.fst
        ↔ ∃ r ∈ exSnap1, r.customerId = "CU-1")
    ∧ (profileOf exSnap1 exRefDate 4 exTable "CU-1").frequency = 1
    ∧ (profileOf exSnap1 exRefDate 4 exTable "CU-1").segmentLabel
        = "Champion" :=
  ⟨(segment_partition_law exSnap1 exRefDate 4 exTable).1,
   (segment_partition_law exSnap1 exRefDate 4 exTable).2.1 "CU-1",
   by decide, by decide⟩

/-- Folding `min` never exceeds the initial accumulator. -/
lemma foldl_min_le_init (l : List ℤ) : ∀ a : ℤ, l.foldl min a ≤ a := by
  induction l with
  | nil => intro a; simp
  | cons x l ih =>
    intro a
    simp only [List.foldl_cons]
    exact le_trans (ih (min a x)) (min_le_left a x)

/-- Folding `min` never exceeds any list element. -/
lemma foldl_min_le_mem (l : List ℤ) :
    ∀ (a x : ℤ), x ∈ l → l.foldl min a ≤ x := by
  induction l with
  | nil => intro a x hx; cases hx
  | cons y l ih =>
    intro a x hx
    simp only [List.foldl_cons]
    rcases List.mem_cons.mp hx with h | h
    · subst h
      exact le_trans (foldl_min_le_init l (min a x)) (min_le_right a x)
    · exact ih (min a y) x h

/-- A `min`-fold returns its initial accumulator or a list element. -/
lemma foldl_min_cases (l : List ℤ) :
    ∀ a : ℤ, l.foldl min a = a ∨ l.foldl min a ∈ l := by
  induction l with
  | nil => intro a; exact Or.inl rfl
  | cons x l ih =>
    intro a
    simp only [List.foldl_cons]
    rcases ih (min a x) with h | h
    · rcases min_choice a x with hc | hc
      · exact Or.inl (h.trans hc)
      · exact Or.inr (List.mem_cons.mpr (Or.inl (h.trans hc)))
    · exact Or.inr (List.mem_cons.mpr (Or.inr h))

/-- Folding `max` dominates the initial accumulator. -/
lemma foldl_max_init_le (l : List ℤ) : ∀ a : ℤ, a ≤ l.foldl max a := by
  induction l with
  | nil => intro a; simp
  | cons x l ih =>
    intro a
    simp only [List.foldl_cons]
    exact le_trans (le_max_left a x) (ih (max a x))

/-- Folding `max` dominates every list element. -/
lemma foldl_max_mem_le (l : List ℤ) :
    ∀ (a x : ℤ), x ∈ l → x ≤ l.foldl max a := by
  induction l with
  | nil => intro a x hx; cases hx
  | cons y l ih =>
    intro a x hx
    simp only [List.foldl_cons]
    rcases List.mem_cons.mp hx with h | h
    · subst h
      exact le_trans (le_max_right a x) (foldl_max_init_le l (max a x))
    · exact ih (max a y) x h

/-- A `max`-fold returns its initial accumulator or a list element. -/
lemma foldl_max_cases (l : List ℤ) :
    ∀ a : ℤ, l.foldl max a = a ∨ l.foldl max a ∈ l := by
  induction l with
  | nil => intro a; exact Or.inl rfl
  | cons x l ih =>
    intro a
    simp only [List.foldl_cons]
    rcases ih (max a x) with h | h
    · rcases max_choice a x with hc | hc
      · exact Or.inl (h.trans hc)
      · exact Or.inr (List.mem_cons.mpr (Or.inl (h.trans hc)))
    · exact Or.inr (List.mem_cons.mpr (Or.inr h))

/-- `listMin` is a lower bound of the list. -/
lemma listMin_le (l : List ℤ) (x : ℤ) (hx : x ∈ l) : listMin l ≤ x := by
  cases l with
  | nil => cases hx
  | cons p ps =>
    rcases List.mem_cons.mp hx with h | h
    · subst h; exact foldl_min_le_init ps x
    · exact foldl_min_le_mem ps p x h

/-- `listMax` is an upper bound of the list. -/
lemma le_listMax (l : List ℤ) (x : ℤ) (hx : x ∈ l) : x ≤ listMax l := by
  cases l with
  | nil => cases hx
  | cons p ps =>
    rcases List.mem_cons.mp hx with h | h
    · subst h; exact foldl_max_init_le ps x
    · exact foldl_max_mem_le ps p x h

/-- On a non-empty list, `listMin` is attained. -/
lemma listMin_mem (l : List ℤ) (h : l ≠ []) : listMin l ∈ l := by
  cases l with
  | nil => exact absurd rfl h
  | cons p ps =>
    rcases foldl_min_cases ps p with hc | hc
    · exact List.mem_cons.mpr (Or.inl hc)
    · exact List.mem_cons.mpr (Or.inr hc)

/-- On a non-empty list, `listMax` is attained. -/
lemma listMax_mem (l : List ℤ) (h : l ≠ []) : listMax l ∈ l := by
  cases l with
  | nil => exact absurd rfl h
  | cons p ps =>
    rcases foldl_max_cases ps p with hc | hc
    · exact List.mem_cons.mpr (Or.inl hc)
    · exact List.mem_cons.mpr (Or.inr hc)

/-- C3: trend continuity — on every non-empty snapshot and for every
granularity, `extractTrends` returns an ordered bucket sequence covering
every calendar period between the minimum and maximum observed order-date
period, with consecutive buckets in adjacent periods, explicit zero-filled
buckets for periods with no activity, and exactly 2 buckets when the range
spans exactly two periods. -/
theorem extractTrends_contiguous_cover :
    ∀ (s : List OrderRecord) (g : Granularity), s ≠ [] → trendsSpec s g := by
  intro s g hs
  have hEmp : s.isEmpty = false := by
    cases s with
    | nil => exact absurd rfl hs
    | cons a t => rfl
  have hne : periodsOf s g ≠ [] := by
    cases s with
    | nil => exact absurd rfl hs
    | cons a t => simp [periodsOf]
  have hB : extractTrends s g
      = (List.range ((maxPeriod s g - minPeriod s g).toNat + 1)).map
          (fun i : ℕ => bucketFor s g (minPeriod s g + (i : ℤ))) := by
    simp only [extractTrends, hEmp, Bool.false_eq_true, if_false]
  have hlen : (extractTrends s g).length
      = (maxPeriod s g - minPeriod s g).toNat + 1 := by
    rw [hB]
    simp only [List.length_map, List.length_range]
  have horder : ∀ i : ℕ, i < (extractTrends s g).length
      → ∃ b, (extractTrends s g)[i]? = some b
          ∧ b.period = minPeriod s g + (i : ℤ) := by
    intro i hi
    rw [hlen] at hi
    refine ⟨bucketFor s g (minPeriod s g + (i : ℤ)), ?_, rfl⟩
    rw [hB, List.getElem?_map, List.getElem?_range hi]
    rfl
  refine ⟨hlen, horder, ?_, ?_, ?_, ?_, ?_, ?_, ?_⟩
  · intro i b b' hgb hgb'
    obtain ⟨hi, -⟩ := List.getElem?_eq_some_iff.mp hgb
    obtain ⟨hi', -⟩ := List.getElem?_eq_some_iff.mp hgb'
    rcases horder i hi with ⟨c, hc, hcp⟩
    rcases horder (i + 1) hi' with ⟨c', hc', hcp'⟩
    have hbc : b = c := by
      have := hgb.symm.trans hc
      exact Option.some.inj this
    have hbc' : b' = c' := by
      have := hgb'.symm.trans hc'
      exact Option.some.inj this
    rw [hbc, hbc', hcp, hcp']
    push_cast
    ring
  · intro r hr
    constructor
    · exact listMin_le _ _ (List.mem_map_of_mem _ hr)
    · exact le_listMax _ _ (List.mem_map_of_mem _ hr)
  · rcases List.mem_map.mp (listMin_mem _ hne) with ⟨r, hr, hre⟩
    exact ⟨r, hr, hre⟩
  · rcases List.mem_map.mp (listMax_mem _ hne) with ⟨r, hr, hre⟩
    exact ⟨r, hr, hre⟩
  · intro p hlo hhi
    have h1 : (p - minPeriod s g).toNat
        < (maxPeriod s g - minPeriod s g).toNat + 1 := by omega
    have h2 : minPeriod s g + ((p - minPeriod s g).toNat : ℤ) = p := by omega
    rw [hB]
    exact ⟨bucketFor s g (minPeriod s g + ((p - minPeriod s g).toNat : ℤ)),
      List.mem_map.mpr ⟨(p - minPeriod s g).toNat,
        List.mem_range.mpr h1, rfl⟩, h2⟩
  · intro b hb hnone
    rw [hB] at hb
    rcases List.mem_map.mp hb with ⟨i, _, hbe⟩
    have hfe : s.filter
        (fun r => decide (periodIndex g r.orderDate = b.period)) = [] := by
      rw [List.filter_eq_nil_iff]
      intro r hr
      simp only [decide_eq_true_eq]
      exact hnone r hr
    have hbb : b = bucketFor s g b.period := by
      rw [← hbe]
      rfl
    rw [hbb]
    unfold bucketFor
    simp [hfe]
  · intro hspan
    rw [hlen, hspan]
    omega

/-- Witness for C3 (Example 4): a concrete snapshot whose order dates span
exactly the months 2017-06 and 2017-07 satisfies the trend-continuity
contract at month granularity and yields exactly 2 buckets. -/
theorem extractTrends_contiguous_cover_witness :
    exSnap2 ≠ [] ∧ trendsSpec exSnap2 Granularity.month
    ∧ (extractTrends exSnap2 Granularity.month).length = 2 :=
  ⟨by decide, extractTrends_contiguous_cover exSnap2 Granularity.month
    (by decide), by decide⟩

/-- Every interval cut from an edge list starting at `b` has its lower edge
at or above `b`. -/
lemma mkBins_lo_ge (l : List ℚ) :
    ∀ b : ℚ, List.Chain' (· < ·) (b :: l)
      → ∀ t ∈ mkBins (b :: l), b ≤ t.1 := by
  induction l with
  | nil =>
    intro b _ t ht
    simp [mkBins] at ht
  | cons c rest ih =>
    intro b hch t ht
    cases rest with
    | nil =>
      simp only [mkBins, List.mem_singleton] at ht
      subst ht
      exact le_refl b
    | cons d rest' =>
      simp only [mkBins, List.mem_cons] at ht
      rcases ht with h | h
      · subst h
        exact le_refl b
      · have hbc : b < c := (List.chain'_cons.mp hch).1
        exact le_trans hbc.le
          (ih c (List.chain'_cons.mp hch).2 t h)

/-- Core counting argument: on a strictly increasing edge list, a value
between the first and last edge lies in exactly one cut interval. -/
lemma mkBins_count_one (rest : List ℚ) :
    ∀ a b x : ℚ, List.Chain' (· < ·) (a :: b :: rest)
      → a ≤ x → x ≤ (b :: rest).getLastD 0
      → (mkBins (a :: b :: rest)).countP (fun t => skelContains t x) = 1 := by
  induction rest with
  | nil =>
    intro a b x _ hax hxb
    have hxb' : x ≤ b := by simpa using hxb
    rcases lt_or_eq_of_le hxb' with h | h
    · simp [mkBins, List.countP_cons, skelContains, hax, h]
    · subst h
      simp [mkBins, List.countP_cons, skelContains, hax, lt_irrefl]
  | cons c rest' ih =>
    intro a b x hch hax hxl
    have hstep : mkBins (a :: b :: c :: rest')
        = (a, b, false) :: mkBins (b :: c :: rest') := rfl
    rw [hstep, List.countP_cons]
    rcases lt_or_le x b with hxb | hbx
    · have htail :
          (mkBins (b :: c :: rest')).countP (fun t => skelContains t x) = 0 := by
        rw [List.countP_eq_zero]
        intro t ht hcont
        have hlo : b ≤ t.1 :=
          mkBins_lo_ge (c :: rest') b (List.chain'_cons.mp hch).2 t ht
        have : t.1 ≤ x := by
          have := (Bool.and_eq_true _ _).mp hcont |>.1
          exact of_decide_eq_true this
        exact absurd (le_trans hlo this) (not_le.mpr hxb)
      have hhead : skelContains (a, b, false) x = true := by
        simp [skelContains, hax, hxb]
      rw [htail, hhead]
      rfl
    · have hhead : skelContains (a, b, false) x = false := by
        simp [skelContains, not_lt.mpr hbx]
      have hxl' : x ≤ (c :: rest').getLastD 0 := by
        simpa using hxl
      have htail := ih b c x (List.chain'_cons.mp hch).2 hbx hxl'
      rw [htail, hhead]
      rfl

/-- The sample edge list `[0, 1/2, 1]` is a valid configuration. -/
lemma exEdges_valid : validEdges exEdges := by
  refine ⟨?_, rfl, rfl⟩
  simp only [exEdges, List.chain'_cons, List.chain'_singleton, and_true]
  norm_num

/-- C4: `DiscountBin` partition — for every snapshot, support threshold and
valid (strictly increasing, 0-to-1) `binEdges` configuration, every
discount value in `[0,1]` is contained in exactly one of the bins returned
by `analyzeDiscountProfit`: the bins partition `[0,1]` with no gaps and no
overlaps. -/
theorem analyzeDiscountProfit_bins_partition :
    ∀ (s : List OrderRecord) (edges : List ℚ) (minSupport : ℚ),
      validEdges edges →
      ∀ x : ℚ, 0 ≤ x → x ≤ 1 →
        ((analyzeDiscountProfit s edges minSupport).bins.countP
            (fun b => binMem b x)) = 1 := by
  intro s edges minSupport hv x hx0 hx1
  obtain ⟨hch, hhead, hlast⟩ := hv
  have hbins : (analyzeDiscountProfit s edges minSupport).bins
      = (mkBins edges).map (mkDiscountBin s) := rfl
  rw [hbins, List.countP_map]
  have hcomp : ((fun b => binMem b x) ∘ mkDiscountBin s)
      = fun t => skelContains t x := rfl
  rw [hcomp]
  cases edges with
  | nil => cases hhead
  | cons a l =>
    have ha : a = 0 := by
      simpa using hhead
    cases l with
    | nil =>
      have : a = 1 := by
        simpa [List.getLast?] using hlast
      rw [ha] at this
      exact absurd this (by norm_num)
    | cons b rest =>
      apply mkBins_count_one rest a b x hch (ha ▸ hx0)
      have : (b :: rest).getLast? = some 1 := by
        rw [← List.getLast?_cons_cons (a := a)]
        exact hlast
      rw [List.getLastD_eq_getLast?, this]
      exact hx1

/-- Witness for C4: with edges `[0, 1/2, 1]` the configuration is valid and
the concrete discount value `3/4` lies in exactly one bin. -/
theorem analyzeDiscountProfit_bins_partition_witness :
    validEdges exEdges ∧ (0 : ℚ) ≤ 3/4 ∧ (3/4 : ℚ) ≤ 1
    ∧ ((analyzeDiscountProfit exSnap1 exEdges 0).bins.countP
        (fun b => binMem b (3/4))) = 1 :=
  ⟨exEdges_valid, by norm_num, by norm_num,
   analyzeDiscountProfit_bins_partition exSnap1 exEdges 0
     exEdges_valid (3/4) (by norm_num) (by norm_num)⟩

/-- C6: guarded margin computation — `analyzeDiscountProfit` never divides
by a zero sale: every record admitted to the margin computation has
`sale ≠ 0`, records with `sale = 0` are counted in `degenerateCount`, and
when every record has `sale = 0` the degenerate count equals the snapshot
size and `optimalBin` is `none` (for any non-negative support threshold). -/
theorem analyzeDiscountProfit_guarded_margin :
    ∀ (s : List OrderRecord) (edges : List ℚ) (minSupport : ℚ),
      0 ≤ minSupport →
      (∀ r ∈ marginInputs s, r.sale ≠ 0)
      ∧ (analyzeDiscountProfit s edges minSupport).degenerateCount
          = s.countP (fun r => decide (r.sale = 0))
      ∧ ((∀ r ∈ s, r.sale = 0) →
          (analyzeDiscountProfit s edges minSupport).degenerateCount
              = s.length
          ∧ (analyzeDiscountProfit s edges minSupport).optimalBin = none) := by
  intro s edges minSupport hms
  refine ⟨?_, rfl, ?_⟩
  · intro r hr
    have := (List.mem_filter.mp hr).2
    simpa using this
  · intro hall
    constructor
    · show s.countP (fun r => decide (r.sale = 0)) = s.length
      rw [List.countP_eq_length]
      intro r hr
      simpa using hall r hr
    · have hfe : ((mkBins edges).map (mkDiscountBin s)).filter
          (fun b => decide (minSupport < b.totalSale)) = [] := by
        rw [List.filter_eq_nil_iff]
        intro b hb
        rcases List.mem_map.mp hb with ⟨t, _, hbt⟩
        have hts : b.totalSale = 0 := by
          rw [← hbt]
          show ((s.filter (fun r => skelContains t r.discount)).map
            OrderRecord.sale).sum = 0
          apply List.sum_eq_zero
          intro v hv
          rcases List.mem_map.mp hv with ⟨r, hrf, hrv⟩
          rw [← hrv]
          exact hall r (List.mem_filter.mp hrf).1
        simp [hts, not_lt.mpr hms]
      have hopt : (analyzeDiscountProfit s edges minSupport).optimalBin
          = (((mkBins edges).map (mkDiscountBin s)).filter
              (fun b => decide (minSupport < b.totalSale))).argmax
              DiscountBin.avgProfitMargin := rfl
      rw [hopt, hfe]
      exact List.argmax_nil _

/-- Witness for C6 (Example 5): on a concrete snapshot in which every
record has `sale = 0`, with support threshold 0, the degenerate count
equals the record count and no optimal bin is reported. -/
theorem analyzeDiscountProfit_guarded_margin_witness :
    (0 : ℚ) ≤ 0
    ∧ (analyzeDiscountProfit exSnapZero exEdges 0).degenerateCount
        = exSnapZero.length
    ∧ (analyzeDiscountProfit exSnapZero exEdges 0).optimalBin = none :=
  ⟨le_refl 0,
   (analyzeDiscountProfit_guarded_margin exSnapZero exEdges 0
      (le_refl 0)).2.2 (by decide)⟩

/-- A quarantined row's `(index, reason)` report appears in the quarantine
list at its absolute index. -/
lemma normalizeFrom_mem_err (rows : List RawRow) :
    ∀ (j i : ℕ) (row : RawRow) (e : Reason),
      rows[i]? = some row → normalizeRow row = .error e
      → (j + i, e) ∈ (normalizeFrom j rows).2 := by
  induction rows with
  | nil =>
    intro j i row e hget _
    simp at hget
  | cons r rest ih =>
    intro j i row e hget hrow
    cases i with
    | zero =>
      rw [List.getElem?_cons_zero] at hget
      have hr : r = row := Option.some.inj hget
      subst hr
      simp [normalizeFrom, hrow]
    | succ i' =>
      rw [List.getElem?_cons_succ] at hget
      have hmem := ih (j + 1) i' row e hget hrow
      have harith : j + (i' + 1) = (j + 1) + i' := by omega
      rw [harith]
      cases hnr : normalizeRow r with
      | ok v => simpa [normalizeFrom, hnr] using hmem
      | error e' => simp [normalizeFrom, hnr, hmem]

/-- A successfully normalized row's record appears in the cleaned
snapshot. -/
lemma normalizeFrom_mem_ok (rows : List RawRow) :
    ∀ (j i : ℕ) (row : RawRow) (v : OrderRecord),
      rows[i]? = some row → normalizeRow row = .ok v
      → v ∈ (normalizeFrom j rows).1 := by
  induction rows with
  | nil =>
    intro j i row v hget _
    simp at hget
  | cons r rest ih =>
    intro j i row v hget hrow
    cases i with
    | zero =>
      rw [List.getElem?_cons_zero] at hget
      have hr : r = row := Option.some.inj hget
      subst hr
      simp [normalizeFrom, hrow]
    | succ i' =>
      rw [List.getElem?_cons_succ] at hget
      have hmem := ih (j + 1) i' row v hget hrow
      cases hnr : normalizeRow r with
      | ok w => simp [normalizeFrom, hnr, hmem]
      | error e' => simpa [normalizeFrom, hnr] using hmem

/-- C5: quarantine on range violation without aborting — a parsed row whose
discount is outside `[0,1]` (e.g. `discount = 1.5`) is rejected with reason
`RANGE_VIOLATION`; every such row is reported in the quarantine list at its
row index; every valid row still reaches the cleaned snapshot; and the
cleaned snapshot is still aggregated normally (the conservation law holds
on it). -/
theorem normalize_quarantines_range_violation :
    ∀ (rows : List RawRow) (dim : OrderRecord → String),
      (∀ (row : RawRow) (p : ParsedRow), parseRow row = .ok p
        → ¬(0 ≤ p.discount ∧ p.discount ≤ 1)
        → normalizeRow row = .error .RANGE_VIOLATION)
      ∧ (∀ (i : ℕ) (row : RawRow), rows[i]? = some row
        → normalizeRow row = .error .RANGE_VIOLATION
        → (i, Reason.RANGE_VIOLATION) ∈ (normalize rows).2)
      ∧ (∀ (i : ℕ) (row : RawRow) (v : OrderRecord), rows[i]? = some row
        → normalizeRow row = .ok v → v ∈ (normalize rows).1)
      ∧ ((aggregate (normalize rows).1 dim).map
            DimensionAggregate.totalSale).sum
          = ((normalize rows).1.map OrderRecord.sale).sum := by
  intro rows dim
  refine ⟨?_, ?_, ?_, aggregate_conserves _ dim⟩
  · intro row p hparse hnot
    have hro : rangeOk p = false := by
      unfold rangeOk
      rcases not_and_or.mp hnot with h | h
      · simp [h]
      · simp [h]
    simp [normalizeRow, hparse, hro]
  · intro i row hget hrow
    have := normalizeFrom_mem_err rows 0 i row Reason.RANGE_VIOLATION hget hrow
    simpa [normalize] using this
  · intro i row v hget hrow
    exact normalizeFrom_mem_ok rows 0 i row v hget hrow

/-- Witness for C5 (Example 2): in a concrete raw row sequence whose first
row has `discount = 1.5`, that row is quarantined with `RANGE_VIOLATION`
at index 0, while the valid second row still reaches the cleaned
snapshot. -/
theorem normalize_quarantines_range_violation_witness :
    ((0, Reason.RANGE_VIOLATION) ∈ (normalize exRawRows).2)
    ∧ sampleRecord "ORD-2" "CU-2" ⟨2017, 7, 20⟩ 200 0 20 2 "Technology"
        ∈ (normalize exRawRows).1 := by
  have t := normalize_quarantines_range_violation exRawRows
    OrderRecord.category
  refine ⟨?_, ?_⟩
  · apply t.2.1 0
      (rawRowOf "ORD-1" "CU-1" ⟨2017, 6, 5⟩ 100 (3/2) 10 1 "Furniture") rfl
    apply t.1
      (rawRowOf "ORD-1" "CU-1" ⟨2017, 6, 5⟩ 100 (3/2) 10 1 "Furniture")
      exParsedBad rfl
    show ¬(0 ≤ (3/2 : ℚ) ∧ (3/2 : ℚ) ≤ 1)
    norm_num
  · exact t.2.2.1 1 _ _ rfl rfl

/-- C7: pipeline determinism — the full pipeline is a pure function of the
snapshot and the configuration: two runs on an identical snapshot with
identical configuration yield identical result sets (the aggregate sort
order is total, with ties broken by key, so even ordering is
reproducible). -/
theorem runPipeline_deterministic :
    ∀ (s₁ s₂ : List OrderRecord) (c₁ c₂ : PipelineConfig),
      s₁ = s₂ → c₁ = c₂ → runPipeline s₁ c₁ = runPipeline s₂ c₂ := by
  intro s₁ s₂ c₁ c₂ hs hc
  rw [hs, hc]

/-- Witness for C7: two runs of the pipeline on the same concrete snapshot
and configuration produce the same output. -/
theorem runPipeline_deterministic_witness :
    exSnap2 = exSnap2 ∧ exConfig = exConfig
    ∧ runPipeline exSnap2 exConfig = runPipeline exSnap2 exConfig :=
  ⟨rfl, rfl, runPipeline_deterministic exSnap2 exSnap2 exConfig exConfig
    rfl rfl⟩

/-- C8: the notebook's ingestion admits every raw row unvalidated — for
every workbook with an "Orders" sheet, `read_excel` returns a DataFrame
indexed by "Row ID" whose rows are exactly the sheet's rows: every row
appears (whatever its field values), and nothing is quarantined,
range-checked, or type-rejected. -/
theorem read_excel_admits_all_rows :
    ∀ (wb : Workbook) (sheet : Sheet),
      lookupSheet wb "Orders" = some sheet →
      ∃ df : DataFrame,
        read_excel wb "Orders" "Row ID" = some df
        ∧ df.map Prod.snd = sheet
        ∧ df.length = sheet.length
        ∧ ∀ r ∈ sheet, (getCell r "Row ID", r) ∈ df := by
  intro wb sheet h
  refine ⟨sheet.map (fun r => (getCell r "Row ID", r)), ?_, ?_, ?_, ?_⟩
  · rw [read_excel, h]
    rfl
  · rw [List.map_map]
    exact List.map_id _
  · simp
  · intro r hr
    exact List.mem_map_of_mem _ hr

/-- Witness for C8: in a concrete workbook whose "Orders" sheet contains a
row with `discount = 1.5`, every row — including that one — appears in the
loaded DataFrame. -/
theorem read_excel_admits_all_rows_witness :
    lookupSheet exWorkbook "Orders" = some exSheet
    ∧ ∃ df : DataFrame,
        read_excel exWorkbook "Orders" "Row ID" = some df
        ∧ df.map Prod.snd = exSheet
        ∧ df.length = exSheet.length
        ∧ ∀ r ∈ exSheet, (getCell r "Row ID", r) ∈ df :=
  ⟨rfl, read_excel_admits_all_rows exWorkbook exSheet rfl⟩

/-- With the ignore filter installed, raising a warning is a no-op. -/
lemma raiseWarning_of_ignore (w : String) (st : NotebookState)
    (h : ignoreInstalled st) : raiseWarning w st = st := by
  unfold raiseWarning
  have h' : st.warnFilters.contains "ignore" = true := h
  rw [if_pos h']

/-- With the ignore filter installed, raising any warning sequence is a
no-op. -/
lemma foldl_raise_of_ignore (ws : List String) :
    ∀ st : NotebookState, ignoreInstalled st
      → ws.foldl (fun acc w => raiseWarning w acc) st = st := by
  induction ws with
  | nil => intro st _; rfl
  | cons w ws ih =>
    intro st h
    simp only [List.foldl_cons]
    rw [raiseWarning_of_ignore w st h]
    exact ih st h

/-- No cell effect removes the ignore filter. -/
lemma cellEffect_keeps_ignore (wb : Workbook) (c : NotebookCell)
    (st : NotebookState) (h : ignoreInstalled st) :
    ignoreInstalled (cellEffect wb c st) := by
  cases c
  case warnFilterIgnore => rfl
  all_goals exact h

/-- No cell effect surfaces a warning by itself. -/
lemma cellEffect_shown (wb : Workbook) (c : NotebookCell)
    (st : NotebookState) :
    (cellEffect wb c st).shownWarnings = st.shownWarnings := by
  cases c <;> rfl

/-- Once the ignore filter is installed, executing any further cells
surfaces no warning and keeps the filter. -/
lemma execCells_of_ignore (wb : Workbook)
    (ps : List (List String × NotebookCell)) :
    ∀ st : NotebookState, ignoreInstalled st
      → (execCells wb ps st).shownWarnings = st.shownWarnings
        ∧ ignoreInstalled (execCells wb ps st) := by
  induction ps with
  | nil => intro st h; exact ⟨rfl, h⟩
  | cons p ps ih =>
    intro st h
    have hcell : execCell wb p st = cellEffect wb p.2 st := by
      unfold execCell
      rw [foldl_raise_of_ignore p.1 st h]
    have hstep : execCells wb (p :: ps) st
        = execCells wb ps (execCell wb p st) := rfl
    rw [hstep, hcell]
    have h' : ignoreInstalled (cellEffect wb p.2 st) :=
      cellEffect_keeps_ignore wb p.2 st h
    rcases ih (cellEffect wb p.2 st) h' with ⟨h1, h2⟩
    exact ⟨h1.trans (cellEffect_shown wb p.2 st), h2⟩

/-- Executing cell sequences in order composes. -/
lemma execCells_append (wb : Workbook)
    (l₁ l₂ : List (List String × NotebookCell)) (st : NotebookState) :
    execCells wb (l₁ ++ l₂) st = execCells wb l₂ (execCells wb l₁ st) := by
  unfold execCells
  exact List.foldl_append _ _ _ _

/-- The `filterwarnings("ignore")` cell installs the ignore filter whatever
the prior state. -/
lemma ignore_after_filter_cell (wb : Workbook) (ws : List String)
    (st : NotebookState) :
    ignoreInstalled (execCell wb (ws, NotebookCell.warnFilterIgnore) st) :=
  rfl

/-- With the ignore filter installed, an empty cell is a complete no-op. -/
lemma execCell_empty_of_ignore (wb : Workbook) (ws : List String)
    (st : NotebookState) (h : ignoreInstalled st) :
    execCell wb (ws, NotebookCell.emptyCell) st = st := by
  unfold execCell
  rw [foldl_raise_of_ignore ws st h]
  rfl

/-- With the ignore filter installed, a sequence of empty cells is a
complete no-op. -/
lemma execCells_empty_of_ignore (wb : Workbook) :
    ∀ (ps : List (List String × NotebookCell)),
      (∀ p ∈ ps, p.2 = NotebookCell.emptyCell)
      → ∀ st : NotebookState, ignoreInstalled st → execCells wb ps st = st := by
  intro ps
  induction ps with
  | nil => intro _ st _; rfl
  | cons p ps ih =>
    intro hall st h
    obtain ⟨ws, c⟩ := p
    have hc : c = NotebookCell.emptyCell :=
      hall (ws, c) (List.mem_cons_self _ _)
    subst hc
    have hstep : execCells wb ((ws, NotebookCell.emptyCell) :: ps) st
        = execCells wb ps (execCell wb (ws, NotebookCell.emptyCell) st) := rfl
    rw [hstep, execCell_empty_of_ignore wb ws st h]
    exact ih (fun q hq => hall q (List.mem_cons_of_mem _ hq)) st h

/-- C9: after setup, every Python warning raised at any later point of the
run is silently suppressed — `warnings.filterwarnings("ignore")` is the
notebook's second code cell, it runs before the data acquisition cell, and
whatever warnings the environment raises in any cell after it, the set of
surfaced warnings never grows past the two-cell setup prefix. -/
theorem warnings_suppressed_after_setup :
    ∀ (wb : Workbook) (warn : ℕ → List String),
      notebookCells[1]? = some NotebookCell.warnFilterIgnore
      ∧ notebookCells[5]? = some NotebookCell.dataAcquisition
      ∧ (runNotebook wb warn).shownWarnings
          = (runNotebookPrefix wb warn 2).shownWarnings := by
  intro wb warn
  refine ⟨rfl, rfl, ?_⟩
  have hsplit : withWarnings warn notebookCells
      = (withWarnings warn notebookCells).take 2
        ++ (withWarnings warn notebookCells).drop 2 :=
    (List.take_append_drop 2 _).symm
  have happ : runNotebook wb warn
      = execCells wb ((withWarnings warn notebookCells).drop 2)
          (runNotebookPrefix wb warn 2) := by
    unfold runNotebook runNotebookPrefix
    conv_lhs => rw [hsplit]
    exact execCells_append wb _ _ _
  have hP2 : ignoreInstalled (runNotebookPrefix wb warn 2) :=
    ignore_after_filter_cell wb (warn 1)
      (execCell wb (warn 0, NotebookCell.pipInstall) initState)
  rw [happ]
  exact (execCells_of_ignore wb _ _ hP2).1

/-- C10: after data acquisition nothing reads or modifies the DataFrame —
the five Data Profiling cells are empty, so the full run's final state is
exactly the state after the acquisition cell, and the loaded DataFrame
(`read_excel` of the "Orders" sheet) is the run's only artifact. -/
theorem df_untouched_after_acquisition :
    ∀ (wb : Workbook) (warn : ℕ → List String),
      notebookCells.drop 6 = List.replicate 5 NotebookCell.emptyCell
      ∧ runNotebook wb warn = runNotebookPrefix wb warn 6
      ∧ (runNotebook wb warn).df = read_excel wb "Orders" "Row ID" := by
  intro wb warn
  have hsplit : withWarnings warn notebookCells
      = (withWarnings warn notebookCells).take 6
        ++ (withWarnings warn notebookCells).drop 6 :=
    (List.take_append_drop 6 _).symm
  have happ : runNotebook wb warn
      = execCells wb ((withWarnings warn notebookCells).drop 6)
          (runNotebookPrefix wb warn 6) := by
    unfold runNotebook runNotebookPrefix
    conv_lhs => rw [hsplit]
    exact execCells_append wb _ _ _
  have h6 : (withWarnings warn notebookCells).take 6
      = (withWarnings warn notebookCells).take 2
        ++ [(warn 2, NotebookCell.libImports),
            (warn 3, NotebookCell.setDisplayOpts),
            (warn 4, NotebookCell.watermarkCell),
            (warn 5, NotebookCell.dataAcquisition)] := rfl
  have hP2 : ignoreInstalled (runNotebookPrefix wb warn 2) :=
    ignore_after_filter_cell wb (warn 1)
      (execCell wb (warn 0, NotebookCell.pipInstall) initState)
  have hP6 : ignoreInstalled (runNotebookPrefix wb warn 6) := by
    unfold runNotebookPrefix
    rw [h6, execCells_append]
    exact (execCells_of_ignore wb _ _ hP2).2
  have hdropEmpty : ∀ p ∈ (withWarnings warn notebookCells).drop 6,
      p.2 = NotebookCell.emptyCell := by
    have hd : (withWarnings warn notebookCells).drop 6
        = [(warn 6, NotebookCell.emptyCell), (warn 7, NotebookCell.emptyCell),
           (warn 8, NotebookCell.emptyCell), (warn 9, NotebookCell.emptyCell),
           (warn 10, NotebookCell.emptyCell)] := rfl
    rw [hd]
    intro p hp
    simp only [List.mem_cons, List.not_mem_nil, or_false] at hp
    rcases hp with h | h | h | h | h <;> (subst h; rfl)
  have hrun : runNotebook wb warn = runNotebookPrefix wb warn 6 := by
    rw [happ]
    exact execCells_empty_of_ignore wb _ hdropEmpty _ hP6
  refine ⟨rfl, hrun, ?_⟩
  rw [hrun]
  rfl

end Superstore
